import Mathlib

/-!
Verification of the pseudotime-ordering and vector-calculus core of dynamo-release.

The graph-ordering code (dynamo/tools/pseudotime.py) is embedded over rational
weight matrices given as lists of rows; the kernel and differential-operator
code (dynamo/tools/utils_vecCalc.py, dynamo/tools/vector_calculus.py) is
embedded over real-valued index functions.  External library primitives that
the code calls (igraph traversals, scipy distances, numpy shape rules) are
modelled from their documented behaviour where the repository code depends on
them.
-/

/-! ### Graph ordering: dynamo/tools/pseudotime.py

A weight matrix `w` describes the directed graph built by
`igraph.Graph.Weighted_Adjacency(matrix=w)`: an edge `i -> j` for every
nonzero entry `w[i][j]`.  All traversals and degree queries in the source use
`mode="all"`, which ignores edge direction. -/

/-- Entry `m[i][j]` of a row-list matrix, 0 outside the stored rectangle. -/
def mget (m : List (List ℚ)) (i j : ℕ) : ℚ := (m.getD i []).getD j 0

/-- Number of graph vertices: the row count of the adjacency matrix. -/
def nVerts (w : List (List ℚ)) : ℕ := w.length

/-- Neighbours of `v` in `mode="all"`: vertices joined to `v` by an edge in
either direction, in increasing vertex order. -/
def neighborsAll (w : List (List ℚ)) (v : ℕ) : List ℕ :=
  (List.range (nVerts w)).filter (fun u => decide (mget w v u ≠ 0 ∨ mget w u v ≠ 0))

/-- igraph `degree(v)` with the default `mode="all"` on a directed graph:
out-degree plus in-degree. -/
def degreeAll (w : List (List ℚ)) (v : ℕ) : ℕ :=
  ((List.range (nVerts w)).filter (fun u => decide (mget w v u ≠ 0))).length +
    ((List.range (nVerts w)).filter (fun u => decide (mget w u v ≠ 0))).length

/-- One step of the iterative depth-first search: the stack keeps the current
path; the first unvisited neighbour of the stack head is visited and pushed,
otherwise the head is popped.  Arguments: fuel, stack, visit order (reversed),
visited list, father array indexed by vertex id. -/
def dfsAux (w : List (List ℚ)) :
    ℕ → List ℕ → List ℕ → List ℕ → List ℤ → List ℕ × List ℤ
  | 0, _, ord, _, fa => (ord.reverse, fa)
  | _ + 1, [], ord, _, fa => (ord.reverse, fa)
  | fuel + 1, v :: rest, ord, vis, fa =>
    match (neighborsAll w v).find? (fun u => decide (u ∉ vis)) with
    | some u => dfsAux w fuel (u :: v :: rest) (u :: ord) (u :: vis) (fa.set u (v : ℤ))
    | none => dfsAux w fuel rest ord vis fa

/-- Model of the external `igraph.Graph.dfs(vid=root, mode="all")`: the
preorder visit list, and the list of depth-first-tree fathers indexed by
vertex id, `-1` for the root and for unvisited vertices.  The fuel `2n + 2`
covers every push and pop of an `n`-vertex traversal. -/
def igraph_dfs (w : List (List ℚ)) (root : ℕ) : List ℕ × List ℤ :=
  dfsAux w (2 * nVerts w + 2) [root] [root] [root] (List.replicate (nVerts w) (-1))

/-- One row of the ordering table built by `get_order_from_DDRTree`. -/
structure OrderingRow where
  cell_index : ℕ
  cell_pseudo_state : ℕ
  pseudo_time : ℚ
  parent : ℤ
deriving DecidableEq

/-- Insertion into a list sorted by `cell_index`. -/
def insertRow (r : OrderingRow) : List OrderingRow → List OrderingRow
  | [] => [r]
  | s :: rest =>
    if r.cell_index ≤ s.cell_index then r :: s :: rest else s :: insertRow r rest

/-- `ordering_df.sort_index()`: sort the rows by `cell_index`. -/
def sortRows : List OrderingRow → List OrderingRow
  | [] => []
  | r :: rest => insertRow r (sortRows rest)

/-- `get_order_from_DDRTree(dp, mst, root_cell)` (pseudotime.py lines 60-99):
run the igraph DFS from `root_cell` on the graph of `mst`, then for each visit
position `i` with visited vertex `curr_node`: if `pres[i] > 0` take
`parent_node = pres[i]`, give `curr_node` pseudotime
`pseudotimes[parent_node] + dp[curr_node, parent_node]` and bump the state
counter when `degree(parent_node) > 2`; otherwise give pseudotime 0 and parent
`-1`.  Finally sort the table by cell index. -/
def getOrderFromDDRTree (dp mst : List (List ℚ)) (root_cell : ℕ) : List OrderingRow :=
  let op := igraph_dfs mst root_cell
  let orders := op.1
  let pres := op.2
  let init : ℕ × List ℚ × List OrderingRow :=
    (0, List.replicate (dp.getD 0 []).length 0, [])
  let fin := (List.range orders.length).foldl
    (fun s i =>
      let curr_node := orders.getD i 0
      let p := pres.getD i 0
      if p > 0 then
        let parent_node := p.toNat
        let curr_pt := (s.2.1.getD parent_node 0) + mget dp curr_node parent_node
        let st := if degreeAll mst parent_node > 2 then s.1 + 1 else s.1
        (st, s.2.1.set curr_node curr_pt,
          s.2.2 ++ [⟨curr_node, st, curr_pt, (parent_node : ℤ)⟩])
      else
        (s.1, s.2.1.set curr_node 0, s.2.2 ++ [⟨curr_node, s.1, 0, -1⟩]))
    init
  sortRows fin.2.2

/-- The tail of `order_cells` (pseudotime.py lines 305-316): the final
ordering re-runs `get_order_from_DDRTree` on the original `dp` and `mst`
variables with the refined root, and the recorded branch points are the
vertices of the refined projection tree with degree greater than 2. -/
def order_cells_final (dp mst refined_tree : List (List ℚ)) (root : ℕ) :
    List ℚ × List ℕ :=
  ((getOrderFromDDRTree dp mst root).map (fun r => r.pseudo_time),
    (List.range (nVerts refined_tree)).filter
      (fun v => decide (degreeAll refined_tree v > 2)))

/-- Modelled from the spec: step 5 (FinalOrder) re-runs the DFS ordering with
the refined root and the refined minimum spanning tree, assigning pseudotime 0
to the root and, to every DFS child, the pseudotime of its DFS parent plus the
length of the connecting edge. -/
def specFinalPseudotime (dp tree : List (List ℚ)) (root : ℕ) : List ℚ :=
  let op := igraph_dfs tree root
  op.1.foldl
    (fun pts v =>
      let p := op.2.getD v (-1)
      if p ≥ 0 then pts.set v ((pts.getD p.toNat 0) + mget dp v p.toNat) else pts)
    (List.replicate (nVerts tree) 0)

/-! ### Space transform: dynamo/tools/vector_calculus.py

The point axis of the Jacobian tensor is represented as a list of per-point
matrices; chunking along the point axis, per-chunk transformation and
re-concatenation mirror the `cores > 1` branch of
`subset_jacobian_transformation`. -/

/-- `transform_jacobian(Js, Qi, Qj)`: per point, `Qi @ J @ Qj.T`. -/
def transform_jacobian {k d1 d2 : ℕ} (Js : List (Matrix (Fin k) (Fin k) ℚ))
    (Qi : Matrix (Fin d1) (Fin k) ℚ) (Qj : Matrix (Fin d2) (Fin k) ℚ) :
    List (Matrix (Fin d1) (Fin d2) ℚ) :=
  Js.map (fun J => Qi * J * Qj.transpose)

/-- `n_j_per_core = int(np.ceil(n / cores))`. -/
def n_j_per_core (n cores : ℕ) : ℕ := (n + cores - 1) / cores

/-- Chunking worker for `chunksOf`; the fuel is the list length, enough for
any positive chunk size. -/
def chunksOfAux {α : Type} (npc : ℕ) : ℕ → List α → List (List α)
  | 0, _ => []
  | _, [] => []
  | fuel + 1, l => l.take npc :: chunksOfAux npc fuel (l.drop npc)

/-- The slices `Js[i:i+npc]` for `i in range(0, n, npc)`: contiguous
non-overlapping chunks of the point axis, in point order. -/
def chunksOf {α : Type} (npc : ℕ) (l : List α) : List (List α) :=
  chunksOfAux npc l.length l

/-- `subset_jacobian_transformation(fjac, X, Qi, Qj, cores)`
(vector_calculus.py lines 52-116): with one core, transform the whole tensor;
with several, split the point axis into chunks of `ceil(n/cores)`, transform
each chunk, and concatenate the chunk results back along the point axis. -/
def subset_jacobian_transformation {α : Type} {k d1 d2 : ℕ}
    (fjac : α → List (Matrix (Fin k) (Fin k) ℚ)) (X : α)
    (Qi : Matrix (Fin d1) (Fin k) ℚ) (Qj : Matrix (Fin d2) (Fin k) ℚ)
    (cores : ℕ) : List (Matrix (Fin d1) (Fin d2) ℚ) :=
  let Js := fjac X
  if cores = 1 then transform_jacobian Js Qi Qj
  else
    ((chunksOf (n_j_per_core Js.length cores) Js).map
      (fun JJ => transform_jacobian JJ Qi Qj)).flatten

/-- Concrete three-point Jacobian tensor for the multicore witness. -/
def fjacW : Unit → List (Matrix (Fin 1) (Fin 1) ℚ) :=
  fun _ => [Matrix.of fun _ _ => 1, Matrix.of fun _ _ => 2, Matrix.of fun _ _ => 3]

/-- Concrete loading matrix for the multicore witness. -/
def QW : Matrix (Fin 1) (Fin 1) ℚ := Matrix.of fun _ _ => 5


/-! ### Kernel math and differential operators: dynamo/tools/utils_vecCalc.py

Arrays are embedded value-wise as real-valued index functions; the
`squeeze`/`flatten` calls of the source only change the rank of the returned
array, never its entries, and are modelled separately by a shape function. -/

noncomputable section

/-- scipy `cdist(x, y, "sqeuclidean")` (external primitive): the matrix of
squared Euclidean distances. -/
def cdist_sqeuclidean {n m dd : ℕ} (x : Fin n → Fin dd → ℝ)
    (y : Fin m → Fin dd → ℝ) : Fin n → Fin m → ℝ :=
  fun i j => ∑ k, (x i k - y j k) ^ 2

/-- `con_K`, cdist branch (utils_vecCalc.py lines 78-81 and 91-92):
`K = exp(-beta * cdist(x, y, "sqeuclidean"))` entrywise. -/
def con_K_cdist {n m dd : ℕ} (x : Fin n → Fin dd → ℝ)
    (y : Fin m → Fin dd → ℝ) (beta : ℝ) : Fin n → Fin m → ℝ :=
  fun i j => Real.exp (-beta * cdist_sqeuclidean x y i j)

/-- `con_K`, explicit branch, difference tensor (lines 88-89):
`D = tile(x[:,:,None],[1,1,m]) - transpose(tile(y[:,:,None],[1,1,n]),[2,1,0])`,
so `D[i,k,j] = x[i,k] - y[j,k]`. -/
def con_K_D {n m dd : ℕ} (x : Fin n → Fin dd → ℝ)
    (y : Fin m → Fin dd → ℝ) : Fin n → Fin dd → Fin m → ℝ :=
  fun i k j => x i k - y j k

/-- `con_K`, explicit branch (lines 82-92): `K = squeeze(sum(D ** 2, 1))`,
then `K = exp(-beta * K)` entrywise. -/
def con_K_explicit {n m dd : ℕ} (x : Fin n → Fin dd → ℝ)
    (y : Fin m → Fin dd → ℝ) (beta : ℝ) : Fin n → Fin m → ℝ :=
  fun i j => Real.exp (-beta * ∑ k, con_K_D x y i k j ^ 2)

/-- `np.squeeze`: drop every axis of extent 1 from a shape. -/
def squeezeShape (s : List ℕ) : List ℕ := s.filter (fun a => a != 1)

/-- The numpy shape of the kernel matrix returned by
`con_K(x, y, beta, method, return_d)` when `x` has `n` rows and `y` has `m`
rows.  The cdist branch (`method == "cdist" and not return_d`) flattens the
`(n, m)` result when `len(K) == 1`, that is when `n = 1`; every other call
takes the explicit branch, whose result is `squeeze` applied to the `(n, m)`
sum over the middle axis of `D ** 2`. -/
def con_K_shape (n m : ℕ) (method_cdist return_d : Bool) : List ℕ :=
  if method_cdist && !return_d then (if n = 1 then [n * m] else [n, m])
  else squeezeShape [n, m]

/-- `Jacobian_rkhs_gaussian`, `vectorize=False` loop (lines 196-201): for each
point `p`, `K, D = con_K(x[p][None,:], X_ctrl, beta, return_d=True)` and
`J[:,:,p] = (C.T * K) @ D[0].T`, all scaled by `-2 * beta` at the end. -/
def Jacobian_rkhs_gaussian_loop {n m dd : ℕ} (x : Fin n → Fin dd → ℝ)
    (Xc C : Fin m → Fin dd → ℝ) (beta : ℝ) : Fin dd → Fin dd → Fin n → ℝ :=
  fun a b p => -2 * beta * ∑ j,
    C j a * con_K_explicit (fun _ : Fin 1 => x p) Xc beta 0 j *
      con_K_D (fun _ : Fin 1 => x p) Xc 0 b j

/-- `Jacobian_rkhs_gaussian`, `vectorize=True` (lines 202-205), entry values
when the einsum operand axes align (every shape with `m ≠ 1` after the
`K[None, :]` re-expansion): `K, D = con_K(x, X_ctrl, beta, return_d=True)` and
`J = einsum("nm, mi, njm → ijn", K, C, D)`, scaled by `-2 * beta`.  The
kernel-shape handling of this path is modelled by
`Jacobian_rkhs_gaussian_vect_run`. -/
def Jacobian_rkhs_gaussian_vect {n m dd : ℕ} (x : Fin n → Fin dd → ℝ)
    (Xc C : Fin m → Fin dd → ℝ) (beta : ℝ) : Fin dd → Fin dd → Fin n → ℝ :=
  fun a b p => -2 * beta * ∑ j,
    con_K_explicit x Xc beta p j * C j a * con_K_D x Xc p b j

/-- `Jacobian_rkhs_gaussian`, `vectorize=True` path with the numpy shape
handling of lines 203-205.  `K = squeeze(sum(D ** 2, 1))` has shape
`squeezeShape [n, m]`, and `if K.ndim == 1: K = K[None, :]` re-expands a 1-D
kernel on the left.  The einsum `"nm, mi, njm → ijn"` rejects an operand with
fewer axes than subscripts and broadcasts axes of extent 1 against the
others.  With one control point (`m = 1`) this breaks: for `n = 1` the kernel
is 0-D and the einsum raises; for `n ≠ 1` the re-expanded kernel has shape
`(1, n)`, so the "n" label broadcasts its 1 against the point axis of `D` and
the contracted "m" label broadcasts the size-1 axes of `C` and `D` against
the `n`-sized second axis of `K`, summing the whole kernel column into every
point.  Every shape with `m ≠ 1` aligns and yields the einsum values. -/
def Jacobian_rkhs_gaussian_vect_run {n m dd : ℕ} (x : Fin n → Fin dd → ℝ)
    (Xc C : Fin m → Fin dd → ℝ) (beta : ℝ) :
    Except String (Fin dd → Fin dd → Fin n → ℝ) :=
  if m = 1 then
    if n = 1 then
      Except.error "einsum: operand 0 has fewer dimensions than its subscripts"
    else
      Except.ok (fun a b p => -2 * beta * ∑ j,
        (∑ q, con_K_explicit x Xc beta q j) * C j a * con_K_D x Xc p b j)
  else Except.ok (Jacobian_rkhs_gaussian_vect x Xc C beta)

/-- `Jacobian_rkhs_gaussian(x, vf_dict, vectorize)` on a 2-D `x`: dispatch
between the per-point loop (well defined on every shape) and the vectorized
einsum path with its kernel-shape handling. -/
def Jacobian_rkhs_gaussian_run {n m dd : ℕ} (x : Fin n → Fin dd → ℝ)
    (Xc C : Fin m → Fin dd → ℝ) (beta : ℝ) (vectorize : Bool) :
    Except String (Fin dd → Fin dd → Fin n → ℝ) :=
  if vectorize then Jacobian_rkhs_gaussian_vect_run x Xc C beta
  else Except.ok (Jacobian_rkhs_gaussian_loop x Xc C beta)

/-- The closed form stated by the spec: per point,
`-2 * beta * (C.T adamard K) @ D.T`, with `K` the Gaussian kernel row of the
point and `D` its coordinate-difference tensor. -/
def Jacobian_closed {n m dd : ℕ} (x : Fin n → Fin dd → ℝ)
    (Xc C : Fin m → Fin dd → ℝ) (beta : ℝ) : Fin dd → Fin dd → Fin n → ℝ :=
  fun a b p => -2 * beta * ∑ j,
    C j a * Real.exp (-beta * ∑ k, (x p k - Xc j k) ^ 2) * (x p b - Xc j b)

/-- Row index `p*d + a` of a Kronecker-structured block matrix: the block row. -/
def finDivD {m d : ℕ} (r : Fin (m * d)) : Fin m :=
  Fin.mk (r.val / d) (by
    rcases Nat.eq_zero_or_pos d with h | h
    . exact absurd r.isLt (by simp [h])
    . exact (Nat.div_lt_iff_lt_mul h).mpr r.isLt)

/-- Row index `p*d + a` of a Kronecker-structured block matrix: the offset
inside the block. -/
def finModD {m d : ℕ} (r : Fin (m * d)) : Fin d :=
  Fin.mk (r.val % d) (by
    rcases Nat.eq_zero_or_pos d with h | h
    . exact absurd r.isLt (by simp [h])
    . exact Nat.mod_lt _ h)

/-- `con_K_div_cur_free` (lines 101-157), Gaussian prefactor: kron of
`exp(-r2/(2*sigma^2))/sigma^2` with `ones((d, d))`, at block `(p, s)`. -/
def dcf_P {mm nn d : ℕ} (x : Fin mm → Fin d → ℝ) (y : Fin nn → Fin d → ℝ)
    (sigma : ℝ) (p : Fin mm) (s : Fin nn) : ℝ :=
  Real.exp (-(∑ k, (x p k - y s k) ^ 2) / (2 * sigma ^ 2)) / sigma ^ 2

/-- `con_K_div_cur_free`, `G_tmp3` entry before the kron with the identity:
`-r2 / sigma^2` at block `(p, s)`. -/
def dcf_T3 {mm nn d : ℕ} (x : Fin mm → Fin d → ℝ) (y : Fin nn → Fin d → ℝ)
    (sigma : ℝ) (p : Fin mm) (s : Fin nn) : ℝ :=
  -(∑ k, (x p k - y s k) ^ 2) / sigma ^ 2

/-- `con_K_div_cur_free`, the `G_tmp2` accumulation (lines 138-151): the sum
over dimension pairs `i ≤ j` of `kron(tmp1 * tmp2, tmp4)` with
`tmp4 = e_i e_j.T + e_j e_i.T`, divided by `sigma^2`; entry at block `(p, s)`,
offsets `(a, b)`. -/
def dcf_G2 {mm nn d : ℕ} (x : Fin mm → Fin d → ℝ) (y : Fin nn → Fin d → ℝ)
    (sigma : ℝ) (p : Fin mm) (s : Fin nn) (a b : Fin d) : ℝ :=
  (∑ i, ∑ j, if i ≤ j ∧ ((a = i ∧ b = j) ∨ (a = j ∧ b = i))
    then (x p i - y s i) * (x p j - y s j) else 0) / sigma ^ 2

/-- `con_K_div_cur_free`, divergence-free kernel (line 154):
`(1 - eta) * G_tmp * (G_tmp2 + kron(G_tmp3 + d - 1, eye(d)))`. -/
def dcf_df_kernel {mm nn d : ℕ} (x : Fin mm → Fin d → ℝ)
    (y : Fin nn → Fin d → ℝ) (sigma eta : ℝ) :
    Fin (mm * d) → Fin (nn * d) → ℝ :=
  fun r c =>
    (1 - eta) * dcf_P x y sigma (finDivD r) (finDivD c) *
      (dcf_G2 x y sigma (finDivD r) (finDivD c) (finModD r) (finModD c) +
        (dcf_T3 x y sigma (finDivD r) (finDivD c) + (d : ℝ) - 1) *
          (if (finModD r : Fin d) = finModD c then 1 else 0))

/-- `con_K_div_cur_free`, curl-free kernel (line 154):
`eta * G_tmp * (kron(ones((m, n)), eye(d)) - G_tmp2)`. -/
def dcf_cf_kernel {mm nn d : ℕ} (x : Fin mm → Fin d → ℝ)
    (y : Fin nn → Fin d → ℝ) (sigma eta : ℝ) :
    Fin (mm * d) → Fin (nn * d) → ℝ :=
  fun r c =>
    eta * dcf_P x y sigma (finDivD r) (finDivD c) *
      ((if (finModD r : Fin d) = finModD c then (1 : ℝ) else 0) -
        dcf_G2 x y sigma (finDivD r) (finDivD c) (finModD r) (finModD c))

/-- `con_K_div_cur_free`, combined kernel (line 155): `G = df + cf`. -/
def dcf_G {mm nn d : ℕ} (x : Fin mm → Fin d → ℝ) (y : Fin nn → Fin d → ℝ)
    (sigma eta : ℝ) : Fin (mm * d) → Fin (nn * d) → ℝ :=
  fun r c => dcf_df_kernel x y sigma eta r c + dcf_cf_kernel x y sigma eta r c

/-- The fitted vector-field record read by `vector_field_function`:
`div_cur_free_kernels` records whether the key "div_cur_free_kernels" is
present in the dict; `C` is the coefficient matrix of the Gaussian path and
`C_dcf` the coefficient vector of the block-kernel path. -/
structure VFDict (nc d : ℕ) where
  div_cur_free_kernels : Bool
  X_ctrl : Fin nc → Fin d → ℝ
  beta : ℝ
  sigma : ℝ
  eta : ℝ
  C : Fin nc → Fin d → ℝ
  C_dcf : Fin (nc * d) → ℝ

/-- The value returned by `vector_field_function`: an `(nq, d)` matrix, a
length-`nq` vector (`dim` sliced), or a flat length-`nq*d` vector from the
block-kernel path. -/
inductive VFOut (nq d : ℕ) where
  | mat : (Fin nq → Fin d → ℝ) → VFOut nq d
  | vec : (Fin nq → ℝ) → VFOut nq d
  | flat : (Fin (nq * d) → ℝ) → VFOut nq d

/-- `vector_field_function(x, vf_dict, dim, kernel)` (lines 23-55) on a 2-D
`x`: when the dict has div/curl-free kernels, dispatch on the kernel name
(raising for an unknown one) and return `K.dot(C)`; otherwise compute the
Gaussian kernel with `con_K` - the `kernel` argument is not consulted - and
return `K.dot(C)`, or `K.dot(C[:, dim])` when `dim` is given. -/
def vector_field_function {nq nc d : ℕ} (x : Fin nq → Fin d → ℝ)
    (vf : VFDict nc d) (dim : Option (Fin d)) (kernel : String) :
    Except String (VFOut nq d) :=
  if vf.div_cur_free_kernels = true then
    if kernel = "full" then
      Except.ok (VFOut.flat fun r => ∑ c, dcf_G x vf.X_ctrl vf.sigma vf.eta r c * vf.C_dcf c)
    else if kernel = "df_kernel" then
      Except.ok (VFOut.flat fun r => ∑ c, dcf_df_kernel x vf.X_ctrl vf.sigma vf.eta r c * vf.C_dcf c)
    else if kernel = "cf_kernel" then
      Except.ok (VFOut.flat fun r => ∑ c, dcf_cf_kernel x vf.X_ctrl vf.sigma vf.eta r c * vf.C_dcf c)
    else Except.error "the kernel can only be one of full, df_kernel and cf_kernel!"
  else
    match dim with
    | none => Except.ok (VFOut.mat fun p a => ∑ j, con_K_cdist x vf.X_ctrl vf.beta p j * vf.C j a)
    | some d0 => Except.ok (VFOut.vec fun p => ∑ j, con_K_cdist x vf.X_ctrl vf.beta p j * vf.C j d0)

/-- Whether an `Except` value is an error. -/
def exceptIsError {A : Type} : Except String A → Bool
  | Except.error _ => true
  | Except.ok _ => false

/-- The payload of an `Except` value, with a default for the error case. -/
def exceptGetD {A : Type} : Except String A → A → A
  | Except.ok a, _ => a
  | Except.error _, d => d

/-- numpy 2-D indexing `jac[i, j]` with bounds checking. -/
def jget (J : List (List ℝ)) (i j : ℕ) : Except String ℝ :=
  match (J.get? i).bind (fun row => row.get? j) with
  | some v => Except.ok v
  | none => Except.error "index out of bounds"

/-- `curl2d(..., jac=J)` (lines 372-382): `jac[1, 0] - jac[0, 1]`. -/
def curl2d_jac (jac : List (List ℝ)) : Except String ℝ := do
  let a ← jget jac 1 0
  let b ← jget jac 0 1
  pure (a - b)

/-- `_curl(..., jac=J)` (lines 361-369): the 3-vector
`[jac[2,1] - jac[1,2], jac[0,2] - jac[2,0], jac[1,0] - jac[0,1]]`. -/
def curl3d_jac (jac : List (List ℝ)) : Except String (List ℝ) := do
  let a ← jget jac 2 1
  let b ← jget jac 1 2
  let c ← jget jac 0 2
  let e ← jget jac 2 0
  let f ← jget jac 1 0
  let g ← jget jac 0 1
  pure [a - b, c - e, f - g]

/-- numpy assignment `curl[i] = v` into a slot of shape `(2, 2)`: a 1-D value
broadcasts only when its length is 1 or 2 (repeated across the rows),
otherwise numpy raises a broadcast `ValueError`. -/
def broadcast_into_2x2 (v : List ℝ) : Except String (List (List ℝ)) :=
  if v.length = 2 then Except.ok [v, v]
  else if v.length = 1 then
    Except.ok [[v.getD 0 0, v.getD 0 0], [v.getD 0 0, v.getD 0 0]]
  else Except.error "could not broadcast input array into shape (2,2)"

/-- Result of `compute_curl`: a scalar per point in 2-D, or the `(n, 2, 2)`
buffer contents otherwise. -/
inductive CurlResult where
  | twoD : List ℝ → CurlResult
  | threeD : List (List (List ℝ)) → CurlResult

/-- `compute_curl(f_jac, X)` (lines 384-404): raise for more than 3 embedding
dimensions; in 2-D store the `curl2d` scalars in a length-`n` buffer; in every
other case store the `_curl` 3-vectors in an `(n, 2, 2)` buffer - each store
must broadcast the per-point value into a `(2, 2)` slot. -/
def compute_curl (f_jac : List ℝ → List (List ℝ)) (X : List (List ℝ)) :
    Except String CurlResult :=
  let n := X.length
  let d := (X.getD 0 []).length
  if d > 3 then Except.error "curl is only defined in 2/3 dimension."
  else if d = 2 then do
    let vals ← (List.range n).mapM (fun i => curl2d_jac (f_jac (X.getD i [])))
    pure (CurlResult.twoD vals)
  else do
    let slices ← (List.range n).mapM (fun i => do
      let v ← curl3d_jac (f_jac (X.getD i []))
      broadcast_into_2x2 v)
    pure (CurlResult.threeD slices)

/-- `curvature_(a, v)` (lines 283-287) on 1-D inputs:
`norm(outer(v, a)) / norm(v) ** 3`, with the Frobenius norm of the outer
product `outer(v, a)[i, j] = v[i] * a[j]`. -/
def curvature_ {dd : ℕ} (a v : Fin dd → ℝ) : ℝ :=
  Real.sqrt (∑ i, ∑ j, (v i * a j) ^ 2) / Real.sqrt (∑ i, v i ^ 2) ^ 3

/-- The 3-D cross product. -/
def cross (v a : Fin 3 → ℝ) : Fin 3 → ℝ :=
  fun i =>
    if i = 0 then v 1 * a 2 - v 2 * a 1
    else if i = 1 then v 2 * a 0 - v 0 * a 2
    else v 0 * a 1 - v 1 * a 0

/-- The curvature formula stated by the spec: `norm(v x a) / norm(v) ** 3`. -/
def curvature_spec (a v : Fin 3 → ℝ) : ℝ :=
  Real.sqrt (∑ i, cross v a i ^ 2) / Real.sqrt (∑ i, v i ^ 2) ^ 3

/-- `torsion_(v, J, a)` (lines 290-295) on 1-D inputs:
`outer(v, a).dot(J.dot(a)) / norm(outer(v, a)) ** 2` - a `dd`-vector, since
`outer(v, a)` is a matrix. -/
def torsion_ {dd : ℕ} (v : Fin dd → ℝ) (J : Fin dd → Fin dd → ℝ)
    (a : Fin dd → ℝ) : Fin dd → ℝ :=
  fun i => (∑ j, v i * a j * (∑ k, J j k * a k)) /
    Real.sqrt (∑ p, ∑ q, (v p * a q) ^ 2) ^ 2

/-- `compute_acceleration(vf, f_jac, X)` (lines 298-319): per point,
`acceleration_(v, J) = J.dot(v)`. -/
def compute_acceleration {n dd : ℕ} (vf : (Fin n → Fin dd → ℝ) → Fin n → Fin dd → ℝ)
    (f_jac : (Fin n → Fin dd → ℝ) → Fin dd → Fin dd → Fin n → ℝ)
    (X : Fin n → Fin dd → ℝ) : Fin n → Fin dd → ℝ :=
  fun i r => ∑ k, f_jac X r k i * vf X i k

/-- `compute_torsion(vf, f_jac, X)` (lines 340-358): raise unless the points
are 3-dimensional; otherwise fill the `(n, d, d)` buffer `tor`, each per-point
slot receiving the `torsion_` vector broadcast across its rows. -/
def compute_torsion {n dd : ℕ} (vf : (Fin n → Fin dd → ℝ) → Fin n → Fin dd → ℝ)
    (f_jac : (Fin n → Fin dd → ℝ) → Fin dd → Fin dd → Fin n → ℝ)
    (X : Fin n → Fin dd → ℝ) : Except String (Fin n → Fin dd → Fin dd → ℝ) :=
  if dd ≠ 3 then Except.error "torsion is only defined in 3 dimension."
  else Except.ok (fun i _r c =>
    torsion_ (vf X i) (fun p q => f_jac X p q i) (compute_acceleration vf f_jac X i) c)

/-- The torsion formula stated by the spec: `(v x a) . (J a) / norm(v x a) ** 2`. -/
def torsion_spec_scalar (v : Fin 3 → ℝ) (J : Fin 3 → Fin 3 → ℝ)
    (a : Fin 3 → ℝ) : ℝ :=
  (∑ i, cross v a i * (∑ k, J i k * a k)) /
    Real.sqrt (∑ i, cross v a i ^ 2) ^ 2

/-! ### Point-to-segment projection: dynamo/tools/pseudotime.py lines 106-134 -/

/-- Column `A = df[:, 0]` of the segment matrix. -/
def segA {dd : ℕ} (df : Fin dd → Fin 2 → ℝ) : Fin dd → ℝ := fun k => df k 0

/-- Column `B = df[:, 1]` of the segment matrix. -/
def segB {dd : ℕ} (df : Fin dd → Fin 2 → ℝ) : Fin dd → ℝ := fun k => df k 1

/-- `AB = B - A`. -/
def segAB {dd : ℕ} (df : Fin dd → Fin 2 → ℝ) : Fin dd → ℝ :=
  fun k => segB df k - segA df k

/-- `AB_squared = sum(AB ** 2)`. -/
def segABsq {dd : ℕ} (df : Fin dd → Fin 2 → ℝ) : ℝ := ∑ k, segAB df k ^ 2

/-- The projection parameter `t = dot(Ap, AB) / AB_squared`. -/
def segT {dd : ℕ} (p : Fin dd → ℝ) (df : Fin dd → Fin 2 → ℝ) : ℝ :=
  (∑ k, (p k - segA df k) * segAB df k) / segABsq df

/-- `project_point_to_line_segment(p, df)`: `A` when the segment is
degenerate, `A` when `t < 0`, `B` when `t > 1`, else `A + t * AB`. -/
def project_point_to_line_segment {dd : ℕ} (p : Fin dd → ℝ)
    (df : Fin dd → Fin 2 → ℝ) : Fin dd → ℝ :=
  if segABsq df = 0 then segA df
  else if segT p df < 0 then segA df
  else if segT p df > 1 then segB df
  else fun k => segA df k + segT p df * segAB df k

/-! ### Concrete inputs used by counterexamples and witnesses -/

/-- A single-row, single-column query point. -/
def x5 : Fin 1 → Fin 1 → ℝ := fun _ _ => 0

/-- A fitted record without div/curl-free kernels. -/
def vf5 : VFDict 1 1 :=
  VFDict.mk false (fun _ _ => 0) 1 1 (1 / 2) (fun _ _ => 0) (fun _ => 0)

/-- A constant 3x3 Jacobian for the 3-D curl evaluation. -/
def fjac6 : List ℝ → List (List ℝ) := fun _ => [[1, 2, 3], [4, 5, 6], [7, 8, 9]]

/-- One 3-D point. -/
def X6 : List (List ℝ) := [[0, 0, 0]]

/-- One 4-D point. -/
def X6b : List (List ℝ) := [[0, 0, 0, 0]]

/-- A constant 2x2 Jacobian for the 2-D curl evaluation. -/
def fjac62 : List ℝ → List (List ℝ) := fun _ => [[1, 2], [4, 5]]

/-- One 2-D point. -/
def X62 : List (List ℝ) := [[0, 0]]

/-- The first standard basis vector of 3-space. -/
def e0v : Fin 3 → ℝ := fun i => if i = 0 then 1 else 0

/-- Velocity `(1, 0, 0)` for the torsion counterexample. -/
def v8 : Fin 3 → ℝ := fun k => if k = 0 then 1 else 0

/-- Acceleration `(0, 1, 0) = J8 . v8` for the torsion counterexample. -/
def a8 : Fin 3 → ℝ := fun k => if k = 1 then 1 else 0

/-- Jacobian with columns `(0,1,0), (0,1,0), (0,0,0)`. -/
def J8 : Fin 3 → Fin 3 → ℝ := fun r c => if r = 1 ∧ (c = 0 ∨ c = 1) then 1 else 0

/-- One 3-D sample point. -/
def X8 : Fin 1 → Fin 3 → ℝ := fun _ _ => 0

/-- Constant velocity field `v8`. -/
def vf8 : (Fin 1 → Fin 3 → ℝ) → Fin 1 → Fin 3 → ℝ := fun _ _ k => v8 k

/-- Constant Jacobian field `J8`. -/
def fjac8 : (Fin 1 → Fin 3 → ℝ) → Fin 3 → Fin 3 → Fin 1 → ℝ := fun _ r c _ => J8 r c

/-- One 2-D sample point, for the torsion dimension guard. -/
def X8w : Fin 1 → Fin 2 → ℝ := fun _ _ => 0

/-- Zero velocity field in 2-D. -/
def vf8w : (Fin 1 → Fin 2 → ℝ) → Fin 1 → Fin 2 → ℝ := fun _ _ _ => 0

/-- Zero Jacobian field in 2-D. -/
def fjac8w : (Fin 1 → Fin 2 → ℝ) → Fin 2 → Fin 2 → Fin 1 → ℝ := fun _ _ _ _ => 0

/-- Single-row query for the kernel-shape witness. -/
def x3w : Fin 1 → Fin 1 → ℝ := fun _ _ => 0

/-- Two control points for the kernel-shape witness. -/
def y3w : Fin 2 → Fin 1 → ℝ := fun _ _ => 1

/-- A single query point for the Jacobian-path counterexample. -/
def x4c : Fin 1 → Fin 1 → ℝ := fun _ _ => 0

/-- A single control point for the Jacobian-path counterexample. -/
def y4c : Fin 1 → Fin 1 → ℝ := fun _ _ => 1

/-- A single-entry coefficient matrix for the Jacobian-path counterexample. -/
def C4c : Fin 1 → Fin 1 → ℝ := fun _ _ => 1

/-- The point projected in the segment witness. -/
def pW10 : Fin 1 → ℝ := fun _ => 2

/-- The segment from 0 to 1 in the segment witness. -/
def dfW10 : Fin 1 → Fin 2 → ℝ := fun _ j => if j = 0 then 0 else 1

end

/-! ### Theorems -/

/-- Concatenating the per-chunk images restores the image of the whole list. -/
theorem chunksOfAux_join_map {α β : Type} (f : α → β) (npc : ℕ) (h1 : 1 ≤ npc) :
    ∀ fuel (l : List α), l.length ≤ fuel →
      ((chunksOfAux npc fuel l).map (List.map f)).flatten = l.map f := by
  intro fuel
  induction fuel with
  | zero =>
    intro l hl
    have : l = [] := List.eq_nil_of_length_eq_zero (Nat.le_zero.mp hl)
    subst this
    simp [chunksOfAux]
  | succ m ih =>
    intro l hl
    cases l with
    | nil => simp [chunksOfAux]
    | cons x xs =>
      have hdrop : ((x :: xs).drop npc).length ≤ m := by
        rw [List.length_drop]
        simp only [List.length_cons] at hl ⊢
        omega
      simp only [chunksOfAux, List.map_cons, List.flatten_cons]
      rw [ih _ hdrop, ← List.map_append, List.take_append_drop, List.map_cons]

/-- C9: with any number of workers, `subset_jacobian_transformation` splits
the point axis into contiguous non-overlapping chunks, transforms each chunk,
and concatenates the results in input point order, so the multi-worker result
equals the single-worker result. -/
theorem C9_multicore_eq {α : Type} {k d1 d2 : ℕ}
    (fjac : α → List (Matrix (Fin k) (Fin k) ℚ)) (X : α)
    (Qi : Matrix (Fin d1) (Fin k) ℚ) (Qj : Matrix (Fin d2) (Fin k) ℚ)
    (cores : ℕ) (hc : 1 ≤ cores) :
    subset_jacobian_transformation fjac X Qi Qj cores =
      subset_jacobian_transformation fjac X Qi Qj 1 := by
  unfold subset_jacobian_transformation
  by_cases h1 : cores = 1
  · simp [h1]
  · simp only [if_neg h1, if_pos rfl]
    cases hJ : fjac X with
    | nil => simp [chunksOf, chunksOfAux, transform_jacobian]
    | cons J Js =>
      have hnpc : 1 ≤ n_j_per_core (J :: Js).length cores := by
        unfold n_j_per_core
        rw [Nat.one_le_div_iff (by omega)]
        simp only [List.length_cons]
        omega
      have hmain := chunksOfAux_join_map (fun M => Qi * M * Qj.transpose) _ hnpc
        (J :: Js).length (J :: Js) le_rfl
      simpa [chunksOf, transform_jacobian] using hmain

/-- Witness for C9: a three-point tensor split over two workers gives the
single-worker result. -/
theorem C9_witness :
    subset_jacobian_transformation fjacW () QW QW 2 =
      subset_jacobian_transformation fjacW () QW QW 1 :=
  C9_multicore_eq fjacW () QW QW 2 (by decide)

/-- C1: evaluation of `get_order_from_DDRTree` at the failing input.  On the
two-vertex tree with the single edge 0-1 of length `dp[1,0] = 5`, rooted at
vertex 0, the code assigns pseudotime 0 to vertex 1, although the DFS parent
of vertex 1 is the root (pseudotime 0) and the connecting edge has length
5 ≠ 0: the guard `pres[i] > 0` treats parent vertex 0 as "no parent", so the
claimed rule pseudotime(child) = pseudotime(parent) + dp[child, parent] is
violated. -/
theorem C1_code_eval :
    (getOrderFromDDRTree [[0, 5], [5, 0]] [[0, 5], [0, 0]] 0).map
        (fun r => r.pseudo_time) = [0, 0] ∧
      mget [[0, 5], [5, 0]] 1 0 = 5 ∧ (5 : ℚ) ≠ 0 := by
  decide

/-- C2: evaluation of the final-ordering step of `order_cells` at the failing
input.  Original tree: path 0-1-2 with `dp` distances 2 and 3; refined
projection tree: star with centre 0 and both refined edge lengths 1; refined
root 0.  The code's final pseudotime column is produced from the original
`dp`/`mst` (giving `[0, 0, 3]`), while re-running the DFS ordering on the
refined tree with the refined distances, as the claim states, gives
`[0, 1, 1]`; the recorded branch points do come from the refined tree. -/
theorem C2_code_eval :
    (order_cells_final [[0, 2, 4], [2, 0, 3], [4, 3, 0]]
          [[0, 2, 0], [0, 0, 3], [0, 0, 0]] [[0, 1, 1], [0, 0, 0], [0, 0, 0]] 0).1
        = [0, 0, 3] ∧
      specFinalPseudotime [[0, 1, 1], [1, 0, 2], [1, 2, 0]]
          [[0, 1, 1], [0, 0, 0], [0, 0, 0]] 0 = [0, 1, 1] ∧
      (order_cells_final [[0, 2, 4], [2, 0, 3], [4, 3, 0]]
          [[0, 2, 0], [0, 0, 3], [0, 0, 0]] [[0, 1, 1], [0, 0, 0], [0, 0, 0]] 0).2
        = [] ∧
      ([0, 0, 3] : List ℚ) ≠ [0, 1, 1] := by
  with_unfolding_all decide

/-- C3: counterexample to the single-row shape clause.  With one query row and
one control point the explicit pairwise-difference path applies `squeeze` to a
`(1, 1)` matrix, which drops both axes and yields a 0-D scalar, not the
claimed 1-D array `[m] = [1]`. -/
theorem C3_counterexample : con_K_shape 1 1 true true ≠ [1] := by decide

/-- C3 (amended): both `con_K` paths compute
`K[i, j] = exp(-beta * norm(x_i - y_j)^2)` entrywise and the explicit path
exposes the difference tensor `D[i, k, j] = x[i, k] - y[j, k]`; a single-row
`x` yields a 1-D result always on the cdist path, and on the explicit path
whenever `y` has at least two rows (with exactly one row the squeeze produces
a 0-D scalar instead). -/
theorem C3_con_K_amended {n m dd : ℕ} (x : Fin n → Fin dd → ℝ)
    (y : Fin m → Fin dd → ℝ) (beta : ℝ) :
    (∀ i j, con_K_cdist x y beta i j = Real.exp (-beta * ∑ k, (x i k - y j k) ^ 2) ∧
      con_K_explicit x y beta i j = Real.exp (-beta * ∑ k, (x i k - y j k) ^ 2)) ∧
    (∀ i k j, con_K_D x y i k j = x i k - y j k) ∧
    (n = 1 → con_K_shape n m true false = [m]) ∧
    (n = 1 → m ≠ 1 → con_K_shape n m true true = [m] ∧ con_K_shape n m false false = [m]) := by
  refine ⟨fun i j => ⟨rfl, rfl⟩, fun i k j => rfl, ?_, ?_⟩
  . intro hn
    subst hn
    simp [con_K_shape]
  . intro hn hm
    subst hn
    have hbne : (m != 1) = true := by simp [hm]
    constructor <;> simp [con_K_shape, squeezeShape, List.filter, hbne]

/-- Witness for C3: one query row against two control points gives the 1-D
shape `[2]` on the cdist path and on the explicit path. -/
theorem C3_witness :
    con_K_shape 1 2 true false = [2] ∧
      (con_K_shape 1 2 true true = [2] ∧ con_K_shape 1 2 false false = [2]) :=
  ⟨(C3_con_K_amended x3w y3w 1).2.2.1 rfl,
    (C3_con_K_amended x3w y3w 1).2.2.2 rfl (by decide)⟩

/-- C4: counterexample.  With one query point and one control point the
`vectorize=True` path fails: `squeeze` leaves a 0-D kernel, the
`K.ndim == 1` guard does not re-expand it, and the einsum rejects a 0-D
operand labelled "nm" - while the `vectorize=False` loop path returns the
Jacobian, so the two code paths do not compute the same tensor for every
model dict. -/
theorem C4_counterexample :
    Jacobian_rkhs_gaussian_run x4c y4c C4c 1 true =
        Except.error "einsum: operand 0 has fewer dimensions than its subscripts" ∧
      Jacobian_rkhs_gaussian_run x4c y4c C4c 1 false =
        Except.ok (Jacobian_rkhs_gaussian_loop x4c y4c C4c 1) :=
  ⟨rfl, rfl⟩

/-- C4 (amended): the per-point loop path always computes the closed form
`-2 beta (C.T * K) D.T`; whenever the model has at least two control points
the vectorized einsum path also succeeds and computes the same d-by-d-by-n
tensor, so the two paths agree exactly on such models - with exactly one
control point the vectorized path raises on a single query point and
otherwise broadcasts the squeezed kernel over the wrong axis. -/
theorem C4_jacobian_paths_amended {n m dd : ℕ} (x : Fin n → Fin dd → ℝ)
    (Xc C : Fin m → Fin dd → ℝ) (beta : ℝ) :
    Jacobian_rkhs_gaussian_run x Xc C beta false =
        Except.ok (Jacobian_rkhs_gaussian_loop x Xc C beta) ∧
      Jacobian_rkhs_gaussian_loop x Xc C beta = Jacobian_closed x Xc C beta ∧
      (2 ≤ m →
        Jacobian_rkhs_gaussian_run x Xc C beta true =
            Except.ok (Jacobian_rkhs_gaussian_vect x Xc C beta) ∧
          Jacobian_rkhs_gaussian_vect x Xc C beta = Jacobian_closed x Xc C beta) := by
  refine ⟨rfl, ?_, ?_⟩
  . funext a b p
    simp only [Jacobian_rkhs_gaussian_loop, Jacobian_closed, con_K_explicit, con_K_D]
  . intro hm
    constructor
    . unfold Jacobian_rkhs_gaussian_run Jacobian_rkhs_gaussian_vect_run
      rw [if_pos rfl, if_neg (by omega)]
    . funext a b p
      simp only [Jacobian_rkhs_gaussian_vect, Jacobian_closed, con_K_explicit, con_K_D]
      congr 1
      apply Finset.sum_congr rfl
      intro j _
      ring

/-- Witness for C4: one query row against two control points - the vectorized
path succeeds and equals the closed form. -/
theorem C4_witness :
    Jacobian_rkhs_gaussian_run x3w y3w y3w 1 true =
        Except.ok (Jacobian_rkhs_gaussian_vect x3w y3w y3w 1) ∧
      Jacobian_rkhs_gaussian_vect x3w y3w y3w 1 = Jacobian_closed x3w y3w y3w 1 :=
  (C4_jacobian_paths_amended x3w y3w y3w 1).2.2 (by norm_num)

/-- C5: counterexample.  Requesting the divergence-free kernel from a fitted
record without div/curl-free kernels does not raise an invalid-variant error:
the Gaussian branch never consults the kernel argument and returns a value. -/
theorem C5_counterexample :
    exceptIsError (vector_field_function x5 vf5 none "df_kernel") = false := rfl

/-- C5 (amended): when the fitted dict lacks div/curl-free kernels the kernel
variant argument is ignored: every variant string returns the full
Gaussian-path value and no error is raised; the invalid-variant error exists
only for dicts that do carry div/curl-free kernels. -/
theorem C5_kernel_amended {nq nc d : ℕ} (x : Fin nq → Fin d → ℝ)
    (vf : VFDict nc d) (dim : Option (Fin d)) (kernel : String)
    (h : vf.div_cur_free_kernels = false) :
    vector_field_function x vf dim kernel = vector_field_function x vf dim "full" ∧
      exceptIsError (vector_field_function x vf dim kernel) = false := by
  unfold vector_field_function
  rw [h]
  cases dim <;> simp [exceptIsError]

/-- Witness for C5: the concrete Gaussian-only record answers the curl-free
variant request with the full-kernel value and no error. -/
theorem C5_witness :
    vector_field_function x5 vf5 none "cf_kernel" = vector_field_function x5 vf5 none "full" ∧
      exceptIsError (vector_field_function x5 vf5 none "cf_kernel") = false :=
  C5_kernel_amended x5 vf5 none "cf_kernel" rfl

/-- C6: evaluation at the failing input.  On a single 3-D point `compute_curl`
fails: `_curl` produces a 3-vector but the result buffer is `np.zeros((n, 2, 2))`,
whose per-point slots cannot receive a length-3 array, so numpy raises a
broadcast error instead of returning the per-point curl 3-vector.  Inputs with
more than 3 dimensions do hit the dimension guard, and the 2-D branch does
return `jac[1, 0] - jac[0, 1]` per point. -/
theorem C6_code_eval :
    compute_curl fjac6 X6 = Except.error "could not broadcast input array into shape (2,2)" ∧
      compute_curl fjac6 X6b = Except.error "curl is only defined in 2/3 dimension." ∧
      compute_curl fjac62 X62 = Except.ok (CurlResult.twoD [(4 : ℝ) - 2]) :=
  ⟨rfl, rfl, rfl⟩

/-- C7: counterexample.  At `a = v = (1, 0, 0)` the code returns
`norm(outer(v, a)) / norm(v)^3 = 1` while the claimed
`norm(v x a) / norm(v)^3` is 0: the outer-product surrogate is not the cross
product. -/
theorem C7_counterexample :
    curvature_ e0v e0v = 1 ∧ curvature_spec e0v e0v = 0 ∧ (1 : ℝ) ≠ 0 := by
  refine ⟨?_, ?_, one_ne_zero⟩
  . unfold curvature_ e0v
    simp [Fin.sum_univ_three]
  . unfold curvature_spec cross e0v
    simp [Fin.sum_univ_three]

/-- C7 (amended): `curvature_(a, v)` returns `norm(v) * norm(a) / norm(v)^3`,
the Frobenius norm of the outer product standing in for the claimed
cross-product norm; the two agree only when `v` and `a` are orthogonal. -/
theorem C7_curvature_amended {dd : ℕ} (a v : Fin dd → ℝ) :
    curvature_ a v =
      Real.sqrt (∑ i, v i ^ 2) * Real.sqrt (∑ j, a j ^ 2) /
        Real.sqrt (∑ i, v i ^ 2) ^ 3 := by
  unfold curvature_
  congr 1
  rw [← Real.sqrt_mul (Finset.sum_nonneg fun i _ => sq_nonneg (v i))]
  congr 1
  rw [Finset.sum_mul_sum]
  apply Finset.sum_congr rfl
  intro i _
  apply Finset.sum_congr rfl
  intro j _
  ring

/-- C8: counterexample.  At the 3-D point with `v = (1, 0, 0)`, Jacobian with
columns `(0,1,0), (0,1,0), (0,0,0)` and acceleration `a = J v = (0, 1, 0)` -
so `v x a = (0, 0, 1)` is nonzero - the code stores 1 in the result tensor
while the claimed scalar `(v x a) . (J a) / norm(v x a)^2` equals 0. -/
theorem C8_counterexample :
    exceptGetD (compute_torsion vf8 fjac8 X8) (fun _ _ _ => 0) 0 0 0 = 1 ∧
      torsion_spec_scalar v8 J8 a8 = 0 ∧ cross v8 a8 2 = 1 ∧ (1 : ℝ) ≠ 0 := by
  have hacc : compute_acceleration vf8 fjac8 X8 0 = a8 := by
    funext r
    unfold compute_acceleration vf8 fjac8 J8 v8 a8
    fin_cases r <;> simp [Fin.sum_univ_three]
  have h1 : compute_torsion vf8 fjac8 X8 = Except.ok (fun i _r c =>
      torsion_ (vf8 X8 i) (fun p' q => fjac8 X8 p' q i)
        (compute_acceleration vf8 fjac8 X8 i) c) := by
    unfold compute_torsion
    rw [if_neg (by norm_num)]
  refine ⟨?_, ?_, ?_, one_ne_zero⟩
  . rw [h1]
    show torsion_ (vf8 X8 0) (fun p' q => fjac8 X8 p' q 0)
        (compute_acceleration vf8 fjac8 X8 0) 0 = 1
    rw [hacc]
    unfold torsion_ vf8 fjac8 v8 a8 J8
    simp [Fin.sum_univ_three]
  . unfold torsion_spec_scalar cross v8 a8 J8
    simp [Fin.sum_univ_three]
  . unfold cross v8 a8
    simp

/-- C8 (amended): the 3-D guard of the batched torsion computation is exact,
and in 3-D each per-point `(d, d)` slot holds the `torsion_` vector - the
velocity `v` scaled by `(a . (J a)) / (norm(v)^2 * norm(a)^2)` - broadcast
across its rows; the claimed cross-product scalar is not computed. -/
theorem C8_torsion_amended {n dd : ℕ}
    (vf : (Fin n → Fin dd → ℝ) → Fin n → Fin dd → ℝ)
    (f_jac : (Fin n → Fin dd → ℝ) → Fin dd → Fin dd → Fin n → ℝ)
    (X : Fin n → Fin dd → ℝ) :
    (dd ≠ 3 →
      compute_torsion vf f_jac X = Except.error "torsion is only defined in 3 dimension.") ∧
    (dd = 3 → compute_torsion vf f_jac X = Except.ok (fun i _r c =>
      vf X i c * (∑ j, compute_acceleration vf f_jac X i j *
          (∑ k, f_jac X j k i * compute_acceleration vf f_jac X i k)) /
        ((∑ q, vf X i q ^ 2) * (∑ q, compute_acceleration vf f_jac X i q ^ 2)))) := by
  constructor
  . intro h
    unfold compute_torsion
    rw [if_pos h]
  . intro h
    subst h
    unfold compute_torsion
    rw [if_neg (by norm_num)]
    congr 1
    funext i r c
    unfold torsion_
    rw [Real.sq_sqrt (Finset.sum_nonneg fun p' _ => Finset.sum_nonneg fun q _ => sq_nonneg _)]
    congr 1
    . rw [Finset.mul_sum]
      apply Finset.sum_congr rfl
      intro j _
      ring
    . rw [Finset.sum_mul_sum]
      apply Finset.sum_congr rfl
      intro p' _
      apply Finset.sum_congr rfl
      intro q _
      ring

/-- Witness for C8: a 2-D input hits the dimension guard. -/
theorem C8_witness :
    compute_torsion vf8w fjac8w X8w = Except.error "torsion is only defined in 3 dimension." :=
  (C8_torsion_amended vf8w fjac8w X8w).1 (by decide)

/-- The squared distance from `p` to the segment point at parameter `s`,
expanded as a quadratic in `s`. -/
theorem seg_dist_sq_expand {dd : ℕ} (p : Fin dd → ℝ) (df : Fin dd → Fin 2 → ℝ)
    (s : ℝ) :
    (∑ k, (p k - (segA df k + s * segAB df k)) ^ 2) =
      (∑ k, (p k - segA df k) ^ 2) -
        2 * s * (∑ k, (p k - segA df k) * segAB df k) + s ^ 2 * segABsq df := by
  unfold segABsq
  rw [Finset.mul_sum, Finset.mul_sum, ← Finset.sum_sub_distrib, ← Finset.sum_add_distrib]
  apply Finset.sum_congr rfl
  intro k _
  ring

/-- A zero squared segment length forces every coordinate of `AB` to vanish. -/
theorem segABsq_eq_zero {dd : ℕ} (df : Fin dd → Fin 2 → ℝ) (h : segABsq df = 0) :
    ∀ k, segAB df k = 0 := by
  intro k
  have h2 := (Finset.sum_eq_zero_iff_of_nonneg
    (fun i _ => sq_nonneg (segAB df i))).mp h
  exact pow_eq_zero_iff (by norm_num) |>.mp (h2 k (Finset.mem_univ k))

/-- C10: `project_point_to_line_segment` returns a point of the closed
segment (`A + t (B - A)` for some `t` in `[0, 1]`), returns `A` for a
degenerate segment, clamps to `A`/`B` when the unclamped parameter leaves
`[0, 1]`, and minimizes the distance to `p` over the segment. -/
theorem C10_projection {dd : ℕ} (p : Fin dd → ℝ) (df : Fin dd → Fin 2 → ℝ) :
    (∃ t : ℝ, 0 ≤ t ∧ t ≤ 1 ∧
        project_point_to_line_segment p df = fun k => segA df k + t * segAB df k) ∧
      (segA df = segB df → project_point_to_line_segment p df = segA df) ∧
      (segABsq df ≠ 0 → segT p df < 0 → project_point_to_line_segment p df = segA df) ∧
      (segABsq df ≠ 0 → 1 < segT p df → project_point_to_line_segment p df = segB df) ∧
      ∀ s : ℝ, 0 ≤ s → s ≤ 1 →
        ((∑ k, (p k - project_point_to_line_segment p df k) ^ 2) ≤
            ∑ k, (p k - (segA df k + s * segAB df k)) ^ 2) ∧
          Real.sqrt (∑ k, (p k - project_point_to_line_segment p df k) ^ 2) ≤
            Real.sqrt (∑ k, (p k - (segA df k + s * segAB df k)) ^ 2) := by
  by_cases hc : segABsq df = 0
  . have hq : project_point_to_line_segment p df = segA df := by
      unfold project_point_to_line_segment
      rw [if_pos hc]
    have hAB := segABsq_eq_zero df hc
    have hsame : ∀ s : ℝ, (∑ k, (p k - (segA df k + s * segAB df k)) ^ 2) =
        ∑ k, (p k - segA df k) ^ 2 := by
      intro s
      apply Finset.sum_congr rfl
      intro k _
      rw [hAB k]
      ring
    refine ⟨⟨0, le_refl 0, zero_le_one, ?_⟩, fun _ => hq, fun h _ => absurd hc h,
      fun h _ => absurd hc h, ?_⟩
    . rw [hq]
      funext k
      ring
    . intro s _ _
      constructor
      . rw [hq, hsame s]
      . apply Real.sqrt_le_sqrt
        rw [hq, hsame s]
  . have hc0 : 0 ≤ segABsq df := Finset.sum_nonneg fun k _ => sq_nonneg _
    have hcpos : 0 < segABsq df := lt_of_le_of_ne hc0 (Ne.symm hc)
    by_cases ht0 : segT p df < 0
    . have hq : project_point_to_line_segment p df = segA df := by
        unfold project_point_to_line_segment
        rw [if_neg hc, if_pos ht0]
      have hb : (∑ k, (p k - segA df k) * segAB df k) < 0 := by
        have h2 : (∑ k, (p k - segA df k) * segAB df k) / segABsq df < 0 := ht0
        rcases div_neg_iff.mp h2 with ⟨_, hneg⟩ | ⟨hb2, _⟩
        . linarith
        . exact hb2
      refine ⟨⟨0, le_refl 0, zero_le_one, ?_⟩, fun _ => hq, fun _ _ => hq,
        fun _ h1 => absurd h1 (by linarith), ?_⟩
      . rw [hq]
        funext k
        ring
      . intro s hs hs1
        have key : (∑ k, (p k - segA df k) ^ 2) ≤
            ∑ k, (p k - (segA df k + s * segAB df k)) ^ 2 := by
          rw [seg_dist_sq_expand]
          nlinarith [mul_nonpos_of_nonneg_of_nonpos hs hb.le,
            mul_nonneg (sq_nonneg s) hcpos.le]
        constructor
        . rw [hq]
          exact key
        . apply Real.sqrt_le_sqrt
          rw [hq]
          exact key
    . by_cases ht1 : segT p df > 1
      . have hq : project_point_to_line_segment p df = segB df := by
          unfold project_point_to_line_segment
          rw [if_neg hc, if_neg ht0, if_pos ht1]
        have hbc : segABsq df < ∑ k, (p k - segA df k) * segAB df k := by
          have h2 : 1 < (∑ k, (p k - segA df k) * segAB df k) / segABsq df := ht1
          exact (one_lt_div hcpos).mp h2
        have hBpt : ∀ k, segB df k = segA df k + 1 * segAB df k := by
          intro k
          unfold segAB
          ring
        refine ⟨⟨1, zero_le_one, le_refl 1, ?_⟩, ?_, fun _ h0 => absurd h0 (by linarith),
          fun _ _ => hq, ?_⟩
        . rw [hq]
          funext k
          exact hBpt k
        . intro hABeq
          rw [hq, ← hABeq]
        . intro s hs hs1
          have hL : (∑ k, (p k - segB df k) ^ 2) =
              ∑ k, (p k - (segA df k + 1 * segAB df k)) ^ 2 := by
            apply Finset.sum_congr rfl
            intro k _
            rw [hBpt k]
          have key : (∑ k, (p k - segB df k) ^ 2) ≤
              ∑ k, (p k - (segA df k + s * segAB df k)) ^ 2 := by
            rw [hL, seg_dist_sq_expand, seg_dist_sq_expand]
            nlinarith [mul_nonneg (sub_nonneg.mpr hs1) (sub_nonneg.mpr hbc.le),
              mul_nonneg (mul_nonneg (sub_nonneg.mpr hs1) (sub_nonneg.mpr hs1)) hcpos.le]
          constructor
          . rw [hq]
            exact key
          . apply Real.sqrt_le_sqrt
            rw [hq]
            exact key
      . have hq : project_point_to_line_segment p df =
            fun k => segA df k + segT p df * segAB df k := by
          unfold project_point_to_line_segment
          rw [if_neg hc, if_neg ht0, if_neg ht1]
        have hb : segT p df * segABsq df = ∑ k, (p k - segA df k) * segAB df k :=
          div_mul_cancel₀ _ hc
        refine ⟨⟨segT p df, not_lt.mp ht0, not_lt.mp ht1, hq⟩, ?_,
          fun _ h0 => absurd h0 ht0, fun _ h1 => absurd h1 ht1, ?_⟩
        . intro hABeq
          exfalso
          apply hc
          unfold segABsq
          apply Finset.sum_eq_zero
          intro k _
          have h2 : segA df k = segB df k := congrFun hABeq k
          unfold segAB
          rw [← h2]
          ring
        . intro s hs hs1
          have hL : (∑ k, (p k - project_point_to_line_segment p df k) ^ 2) =
              ∑ k, (p k - (segA df k + segT p df * segAB df k)) ^ 2 := by
            rw [hq]
          have key : (∑ k, (p k - (segA df k + segT p df * segAB df k)) ^ 2) ≤
              ∑ k, (p k - (segA df k + s * segAB df k)) ^ 2 := by
            rw [seg_dist_sq_expand, seg_dist_sq_expand]
            nlinarith [mul_nonneg hcpos.le (sq_nonneg (s - segT p df)), hb]
          constructor
          . rw [hL]
            exact key
          . apply Real.sqrt_le_sqrt
            rw [hL]
            exact key

/-- Witness for C10: the point 2 projected on the 1-D segment from 0 to 1 is
at least as close to the projection as to the midpoint of the segment. -/
theorem C10_witness :
    (∑ k, (pW10 k - project_point_to_line_segment pW10 dfW10 k) ^ 2) ≤
      ∑ k, (pW10 k - (segA dfW10 k + (1 / 2 : ℝ) * segAB dfW10 k)) ^ 2 :=
  ((C10_projection pW10 dfW10).2.2.2.2 (1 / 2) (by norm_num) (by norm_num)).1
